import Mathlib

/-!
Shallow embedding of the Interview-Agent voice client (src/App.tsx, src/types.ts).

The React component keeps its UI state in `useState` hooks (history, centerPanel,
feedback) and its audio bookkeeping in refs (nextStartTimeRef, audioQueueRef and
the four node/context refs).  The Gemini session callbacks installed in
`connectToGemini` close over the `centerPanel` value of the render in which the
connection was opened; functional `setX(prev => ...)` updates act on the live
state.  The embedding therefore threads two pieces of data through the message
handler: the live `AppState` and the immutable `closure` snapshot of the center
panel captured when the callbacks were installed.
-/

namespace InterviewAgent

/-- `Message` from src/types.ts: `{id, role: user|model, text, timestamp}`. -/
inductive Role
  | user
  | model
deriving DecidableEq, Repr

structure Message where
  id : String
  role : Role
  text : String
  timestamp : Nat
deriving DecidableEq, Repr

/-- The structured feedback object of the `update_ui` tool declaration. -/
structure Feedback where
  overall_score : Option ℚ
  strengths : List String
  improvements : List String
  short_summary : Option String
  suggested_outline : List String
deriving DecidableEq, Repr

/-- `centerPanel` state: `{question, status, transcript}` (App.tsx lines 87-91). -/
structure CenterPanel where
  question : String
  status : String
  transcript : String
deriving DecidableEq, Repr

/-- Arguments of an `update_ui` tool call (App.tsx lines 56-73). -/
structure UpdateUiArgs where
  center_panel_question : Option String
  status_message : Option String
  feedback : Option Feedback
  mode : Option String
deriving DecidableEq, Repr

/-- One entry of `msg.toolCall.functionCalls`. -/
structure FunctionCall where
  id : String
  name : String
  args : UpdateUiArgs
deriving DecidableEq, Repr

/-- One acknowledgment pushed into `responses` (App.tsx lines 202-206). -/
structure ToolResponse where
  id : String
  name : String
  result : String
deriving DecidableEq, Repr

/-- A decoded audio part of a model turn: by the time line 233 runs, the base64
payload has been decoded into an `AudioBuffer`; what the scheduler consumes is
the output context's `currentTime` at handling time, the buffer's duration and
the identity of the freshly created source node. -/
structure AudioChunk where
  now : ℚ
  duration : ℚ
  sourceId : Nat
deriving DecidableEq, Repr

/-- `msg.serverContent`: the fields the handler reads (App.tsx lines 215-276). -/
structure ServerContent where
  audioPart : Option AudioChunk
  outputTranscription : Option String
  inputTranscription : Option String
  turnComplete : Bool
deriving DecidableEq, Repr

/-- An inbound `LiveServerMessage`, with `time` standing for `Date.now()` at
handling time (used for entry ids and timestamps). -/
structure ServerMessage where
  toolCall : Option (List FunctionCall)
  serverContent : Option ServerContent
  time : Nat
deriving DecidableEq, Repr

/-- The mutable refs of App.tsx lines 96-102: the four node/context refs are
modelled by whether they currently hold a non-null value, plus the playback
queue of in-flight source nodes and the output-timeline cursor. -/
structure Refs where
  processor : Bool
  inputSource : Bool
  inputCtx : Bool
  outputCtx : Bool
  audioQueue : List Nat
  nextStartTime : ℚ
deriving DecidableEq, Repr

/-- The full React state relevant to the event router. -/
structure AppState where
  history : List Message
  centerPanel : CenterPanel
  feedback : Option Feedback
  refs : Refs
deriving DecidableEq, Repr

/-- JavaScript truthiness of an optional string: `undefined` and `""` are
falsy, any non-empty string is truthy. -/
def strTruthy : Option String → Bool
  | none => false
  | some s => !s.isEmpty

/-- `if (args.center_panel_question) setCenterPanel(...)` (App.tsx lines 188-190). -/
def applyQuestion (o : Option String) (st : AppState) : AppState :=
  if strTruthy o then
    { st with centerPanel := { st.centerPanel with question := o.getD "" } }
  else st

/-- `if (args.status_message) setCenterPanel(...)` (App.tsx lines 193-195). -/
def applyStatus (o : Option String) (st : AppState) : AppState :=
  if strTruthy o then
    { st with centerPanel := { st.centerPanel with status := o.getD "" } }
  else st

/-- `if (args.feedback) setFeedback(args.feedback)` (App.tsx lines 198-200):
the feedback snapshot is replaced wholesale. -/
def applyFeedback (o : Option Feedback) (st : AppState) : AppState :=
  match o with
  | some f => { st with feedback := some f }
  | none => st

/-- Effect of one `update_ui` call's argument object on the state
(App.tsx lines 185-200): the three guarded updates in source order. -/
def applyUpdateUi (args : UpdateUiArgs) (st : AppState) : AppState :=
  applyFeedback args.feedback
    (applyStatus args.status_message
      (applyQuestion args.center_panel_question st))

/-- The `for (const call of calls)` loop of App.tsx lines 183-208: calls named
`update_ui` are applied and acknowledged with a success result carrying the
call's id and name; any other call is skipped entirely. -/
def handleCalls : List FunctionCall → AppState → AppState × List ToolResponse
  | [], st => (st, [])
  | c :: rest, st =>
    if c.name = "update_ui" then
      let r := handleCalls rest (applyUpdateUi c.args st)
      (r.1, ⟨c.id, c.name, "success"⟩ :: r.2)
    else
      handleCalls rest st

/-- Playback scheduling of one decoded chunk (App.tsx lines 231-237):
`startTime = max(now, nextStartTime)`, the source starts there, the cursor
advances by the chunk's duration, and the source is pushed onto the queue.
Returns the new refs and the chosen start time. -/
def scheduleChunk (ch : AudioChunk) (r : Refs) : Refs × ℚ :=
  let startTime := max ch.now r.nextStartTime
  ({ r with
      nextStartTime := startTime + ch.duration,
      audioQueue := r.audioQueue ++ [ch.sourceId] },
   startTime)

/-- `setHistory(prev => [...prev, {id, role: 'model', text, timestamp}])`
(App.tsx lines 247-252). -/
def appendModelEntry (t : String) (time : Nat) (st : AppState) : AppState :=
  { st with history :=
      st.history ++ [(⟨toString time, Role.model, t, time⟩ : Message)] }

/-- `setCenterPanel(prev => ({...prev, transcript: text}))` (App.tsx line 264):
the live transcript buffer is overwritten. -/
def setTranscript (t : String) (st : AppState) : AppState :=
  { st with centerPanel := { st.centerPanel with transcript := t } }

/-- The turn-complete commit (App.tsx lines 267-276).  The guard and the
committed text read `centerPanel.transcript` *from the closure installed at
connect time*, not from the live state; only the clearing write goes through a
functional update and hence acts on the live state. -/
def commitTurn (closure : CenterPanel) (time : Nat) (st : AppState) : AppState :=
  if closure.transcript.isEmpty then st
  else
    let st1 := { st with history :=
        st.history ++ [(⟨toString time, Role.user, closure.transcript, time⟩ : Message)] }
    { st1 with centerPanel := { st1.centerPanel with transcript := "" } }

/-- The model-turn audio branch (App.tsx lines 217-242): only runs when an
inline-data part is present and the output context ref is non-null. -/
def handleAudio (a : Option AudioChunk) (st : AppState) : AppState :=
  match a with
  | some ch =>
    if st.refs.outputCtx then { st with refs := (scheduleChunk ch st.refs).1 } else st
  | none => st

/-- `if (serverContent.outputTranscription?.text)` (App.tsx lines 246-253):
each non-empty output-transcription chunk is appended as its own entry. -/
def handleOutputTr (o : Option String) (time : Nat) (st : AppState) : AppState :=
  if strTruthy o then appendModelEntry (o.getD "") time st else st

/-- `if (serverContent.inputTranscription?.text)` (App.tsx lines 256-265). -/
def handleInputTr (o : Option String) (st : AppState) : AppState :=
  if strTruthy o then setTranscript (o.getD "") st else st

/-- `if (serverContent.turnComplete && centerPanel.transcript)`
(App.tsx lines 267-276); the transcript read comes from the closure. -/
def handleTurnComplete (closure : CenterPanel) (b : Bool) (time : Nat)
    (st : AppState) : AppState :=
  if b then commitTurn closure time st else st

/-- Handling of `msg.serverContent` (App.tsx lines 215-277), in source order:
audio part, output transcription, input transcription, turn-complete. -/
def handleServerContent (closure : CenterPanel) (sc : ServerContent)
    (time : Nat) (st : AppState) : AppState :=
  handleTurnComplete closure sc.turnComplete time
    (handleInputTr sc.inputTranscription
      (handleOutputTr sc.outputTranscription time
        (handleAudio sc.audioPart st)))

/-- The `onmessage` callback (App.tsx lines 176-278): tool calls first, then
server content; returns the new state and the batch of tool acknowledgments
sent back through `sendToolResponse`. -/
def onmessage (closure : CenterPanel) (msg : ServerMessage)
    (st : AppState) : AppState × List ToolResponse :=
  let toolStep :=
    match msg.toolCall with
    | some calls => handleCalls calls st
    | none => (st, [])
  match msg.serverContent with
  | some sc => (handleServerContent closure sc msg.time toolStep.1, toolStep.2)
  | none => toolStep

/-- Fold a sequence of inbound messages through the handler, with the closure
snapshot fixed for the whole session (it is captured once, when the callbacks
are installed). -/
def runMessages (closure : CenterPanel) (msgs : List ServerMessage)
    (st : AppState) : AppState :=
  msgs.foldl (fun s m => (onmessage closure m s).1) st

/-- The history entries a single message appends, computed from the message and
the closure alone. -/
def newEntries (closure : CenterPanel) (msg : ServerMessage) : List Message :=
  match msg.serverContent with
  | none => []
  | some sc =>
    (if strTruthy sc.outputTranscription then
        [(⟨toString msg.time, Role.model, sc.outputTranscription.getD "", msg.time⟩ : Message)]
      else []) ++
    (if sc.turnComplete && !closure.transcript.isEmpty then
        [(⟨toString msg.time, Role.user, closure.transcript, msg.time⟩ : Message)]
      else [])

/-- The externally visible side effects of `cleanup` (disconnects, context
closes, forced stops), used to show the second run performs none of them. -/
inductive CleanupAct
  | disconnectProcessor
  | disconnectSource
  | closeInputCtx
  | closeOutputCtx
  | stopSource (id : Nat)
deriving DecidableEq, Repr

/-- The `cleanup` routine (App.tsx lines 301-320): each ref is disconnected or
closed only if non-null and then nulled; every queued source is stopped and the
queue is emptied.  Returns the new refs and the actions performed. -/
def cleanup (r : Refs) : Refs × List CleanupAct :=
  let s1 : Refs × List CleanupAct :=
    if r.processor then ({ r with processor := false }, [CleanupAct.disconnectProcessor])
    else (r, [])
  let s2 : Refs × List CleanupAct :=
    if s1.1.inputSource then ({ s1.1 with inputSource := false }, s1.2 ++ [CleanupAct.disconnectSource])
    else s1
  let s3 : Refs × List CleanupAct :=
    if s2.1.inputCtx then ({ s2.1 with inputCtx := false }, s2.2 ++ [CleanupAct.closeInputCtx])
    else s2
  let s4 : Refs × List CleanupAct :=
    if s3.1.outputCtx then ({ s3.1 with outputCtx := false }, s3.2 ++ [CleanupAct.closeOutputCtx])
    else s3
  ({ s4.1 with audioQueue := [] }, s4.2 ++ s4.1.audioQueue.map CleanupAct.stopSource)

/-- Run the playback-scheduling branch over a sequence of decoded chunks in
arrival order; returns the chosen start times and the final refs. -/
def schedRun : List AudioChunk → Refs → List ℚ × Refs
  | [], r => ([], r)
  | ch :: rest, r =>
    ((scheduleChunk ch r).2 :: (schedRun rest (scheduleChunk ch r).1).1,
     (schedRun rest (scheduleChunk ch r).1).2)

/-- The start times chosen for a sequence of chunks. -/
def schedStarts (chunks : List AudioChunk) (r : Refs) : List ℚ :=
  (schedRun chunks r).1

/-- The successive values of the output-timeline cursor while a sequence of
chunks is scheduled (initial value included). -/
def cursorTrace : List AudioChunk → Refs → List ℚ
  | [], r => [r.nextStartTime]
  | ch :: rest, r => r.nextStartTime :: cursorTrace rest (scheduleChunk ch r).1

/-- Initial `centerPanel` state (App.tsx lines 87-91). -/
def initialPanel : CenterPanel :=
  ⟨"Ready to start?", "Click the mic to begin", ""⟩

/-- Refs as they stand right after a successful connect. -/
def connectedRefs : Refs := ⟨true, true, true, true, [], 0⟩

/-- App state at the start of a fresh session. -/
def freshState : AppState := ⟨[], initialPanel, none, connectedRefs⟩

/-- A message carrying only a partial input transcription. -/
def inputMsg (t : String) (k : Nat) : ServerMessage :=
  ⟨none, some ⟨none, none, some t, false⟩, k⟩

/-- A message carrying only a turn-complete signal. -/
def turnCompleteMsg (k : Nat) : ServerMessage :=
  ⟨none, some ⟨none, none, none, true⟩, k⟩

/-- The `{data: base64, mimeType}` blob of src/types.ts (`AudioBlob`). -/
structure AudioBlob where
  data : List Char
  mimeType : String
deriving DecidableEq, Repr

/-- Modelled from the spec: `createPcmBlob` lives in `utils/audioUtils.ts`,
which is not part of the provided sources; §4.1 requires out-of-range input to
clamp into `[-1, 1]` rather than throw. -/
def clampSample (x : ℚ) : ℚ := max (-1) (min 1 x)

/-- Modelled from the spec: quantization of one clamped sample to a 16-bit
integer (§4.1, "lossy only through quantization to 16-bit integers"). -/
def quantize (x : ℚ) : ℤ := round (clampSample x * 32767)

/-- Inverse of the quantization scale, used to state the round-trip bound. -/
def dequantize (i : ℤ) : ℚ := (i : ℚ) / 32767

/-- Modelled from the spec: little-endian byte pair of one 16-bit sample
(§4.1, "byte-accurate 16-bit little-endian PCM encoding"). -/
def int16ToBytes (i : ℤ) : List Nat :=
  let u := (i.emod 65536).toNat
  [u % 256, u / 256]

/-- Recover a signed 16-bit value from its little-endian byte pair. -/
def bytesToInt16 (b0 b1 : Nat) : ℤ :=
  let u := b0 + 256 * b1
  if u < 32768 then (u : ℤ) else (u : ℤ) - 65536

/-- Modelled from the spec: the PCM byte stream of a window of samples, two
bytes per sample in input order. -/
def pcmBytes : List ℚ → List Nat
  | [] => []
  | x :: rest => int16ToBytes (quantize x) ++ pcmBytes rest

/-- The standard base64 alphabet. -/
def b64Alphabet : List Char :=
  ['A', 'B', 'C', 'D', 'E', 'F', 'G', 'H', 'I', 'J', 'K', 'L', 'M',
   'N', 'O', 'P', 'Q', 'R', 'S', 'T', 'U', 'V', 'W', 'X', 'Y', 'Z',
   'a', 'b', 'c', 'd', 'e', 'f', 'g', 'h', 'i', 'j', 'k', 'l', 'm',
   'n', 'o', 'p', 'q', 'r', 's', 't', 'u', 'v', 'w', 'x', 'y', 'z',
   '0', '1', '2', '3', '4', '5', '6', '7', '8', '9', '+', '/']

/-- Character of one 6-bit group. -/
def b64Char (n : Nat) : Char := b64Alphabet.getD n '='

/-- Index of a base64 character in the alphabet. -/
def b64Val (c : Char) : Nat := b64Alphabet.indexOf c

/-- Modelled from the spec: standard base64 encoding of a byte stream
(§4.1, "base64-wrapped for transport"). -/
def b64Encode : List Nat → List Char
  | b0 :: b1 :: b2 :: rest =>
    b64Char (b0 / 4) :: b64Char (b0 % 4 * 16 + b1 / 16) ::
      b64Char (b1 % 16 * 4 + b2 / 64) :: b64Char (b2 % 64) :: b64Encode rest
  | [b0, b1] =>
    [b64Char (b0 / 4), b64Char (b0 % 4 * 16 + b1 / 16), b64Char (b1 % 16 * 4), '=']
  | [b0] =>
    [b64Char (b0 / 4), b64Char (b0 % 4 * 16), '=', '=']
  | [] => []

/-- Base64 decoding, honoring `=` padding. -/
def b64Decode : List Char → List Nat
  | c0 :: c1 :: c2 :: c3 :: rest =>
    if c2 = '=' then
      [b64Val c0 * 4 + b64Val c1 / 16]
    else if c3 = '=' then
      [b64Val c0 * 4 + b64Val c1 / 16, b64Val c1 % 16 * 16 + b64Val c2 / 4]
    else
      (b64Val c0 * 4 + b64Val c1 / 16) :: (b64Val c1 % 16 * 16 + b64Val c2 / 4) ::
        (b64Val c2 % 4 * 64 + b64Val c3) :: b64Decode rest
  | _ => []

/-- Modelled from the spec: the encoder used at App.tsx line 169 — clamp,
quantize to 16-bit little-endian PCM, base64-wrap, tag with the fixed mime
descriptor of the 16 kHz capture context. -/
def createPcmBlob (xs : List ℚ) : AudioBlob :=
  ⟨b64Encode (pcmBytes xs), "audio/pcm;rate=16000"⟩

/-- Decode a blob back to samples: base64-decode, then read little-endian
16-bit pairs back through the quantization scale. -/
def bytesToSamples : List Nat → List ℚ
  | b0 :: b1 :: rest => dequantize (bytesToInt16 b0 b1) :: bytesToSamples rest
  | _ => []

def decodePcmBlob (blob : AudioBlob) : List ℚ :=
  bytesToSamples (b64Decode blob.data)

/-- State touched by the microphone callback: the UI-facing volume signal and
the blobs forwarded to the session so far. -/
structure CaptureState where
  volume : ℝ
  sent : List AudioBlob

/-- The `onaudioprocess` callback (App.tsx lines 161-171): sum of squares by a
running loop, volume set to the root of the mean square, and the encoded
window forwarded to the session. -/
noncomputable def onaudioprocess (inputData : List ℚ) (st : CaptureState) : CaptureState :=
  let sum := inputData.foldl (fun s x => s + x * x) 0
  { volume := Real.sqrt ((sum / (inputData.length : ℚ) : ℚ) : ℝ),
    sent := st.sent ++ [createPcmBlob inputData] }

/-- Concrete inputs used by the witnesses. -/
def staleClosure : CenterPanel := ⟨"Ready to start?", "Session Ended", "hello"⟩

def staleState : AppState := ⟨[], staleClosure, none, connectedRefs⟩

def chunksW : List AudioChunk := [⟨0, 1, 0⟩, ⟨1/2, 2, 1⟩, ⟨5, 3, 2⟩]

def callA : FunctionCall :=
  ⟨"call-1", "update_ui", ⟨some "Tell me about yourself", some "Listening...", none, none⟩⟩

def callB : FunctionCall :=
  ⟨"call-2", "update_ui",
    ⟨none, none, some ⟨some 8, ["clear"], ["add detail"], some "good", []⟩, none⟩⟩

def argsW : UpdateUiArgs := ⟨some "", some "", none, some "hr_interview"⟩

def stEmptyW : AppState := ⟨[], ⟨"", "", "buf"⟩, none, connectedRefs⟩

def samplesW : List ℚ := [0, 1, -1]

/-! ### Frame lemmas for the tool-call branch -/

lemma applyQuestion_status (o : Option String) (st : AppState) :
    (applyQuestion o st).centerPanel.status = st.centerPanel.status := by
  by_cases h : strTruthy o <;> simp [applyQuestion, h]

lemma applyQuestion_transcript (o : Option String) (st : AppState) :
    (applyQuestion o st).centerPanel.transcript = st.centerPanel.transcript := by
  by_cases h : strTruthy o <;> simp [applyQuestion, h]

lemma applyQuestion_history (o : Option String) (st : AppState) :
    (applyQuestion o st).history = st.history := by
  by_cases h : strTruthy o <;> simp [applyQuestion, h]

lemma applyQuestion_feedback (o : Option String) (st : AppState) :
    (applyQuestion o st).feedback = st.feedback := by
  by_cases h : strTruthy o <;> simp [applyQuestion, h]

lemma applyStatus_question (o : Option String) (st : AppState) :
    (applyStatus o st).centerPanel.question = st.centerPanel.question := by
  by_cases h : strTruthy o <;> simp [applyStatus, h]

lemma applyStatus_transcript (o : Option String) (st : AppState) :
    (applyStatus o st).centerPanel.transcript = st.centerPanel.transcript := by
  by_cases h : strTruthy o <;> simp [applyStatus, h]

lemma applyStatus_history (o : Option String) (st : AppState) :
    (applyStatus o st).history = st.history := by
  by_cases h : strTruthy o <;> simp [applyStatus, h]

lemma applyStatus_feedback (o : Option String) (st : AppState) :
    (applyStatus o st).feedback = st.feedback := by
  by_cases h : strTruthy o <;> simp [applyStatus, h]

lemma applyFeedback_panel (o : Option Feedback) (st : AppState) :
    (applyFeedback o st).centerPanel = st.centerPanel := by
  cases o <;> rfl

lemma applyFeedback_history (o : Option Feedback) (st : AppState) :
    (applyFeedback o st).history = st.history := by
  cases o <;> rfl

lemma applyUpdateUi_history (a : UpdateUiArgs) (st : AppState) :
    (applyUpdateUi a st).history = st.history := by
  simp [applyUpdateUi, applyFeedback_history, applyStatus_history, applyQuestion_history]

lemma applyUpdateUi_transcript (a : UpdateUiArgs) (st : AppState) :
    (applyUpdateUi a st).centerPanel.transcript = st.centerPanel.transcript := by
  simp [applyUpdateUi, applyFeedback_panel, applyStatus_transcript, applyQuestion_transcript]

lemma handleCalls_history (calls : List FunctionCall) (st : AppState) :
    (handleCalls calls st).1.history = st.history := by
  induction calls generalizing st with
  | nil => rfl
  | cons c rest ih =>
    by_cases h : c.name = "update_ui" <;>
      simp [handleCalls, h, ih, applyUpdateUi_history]

/-! ### History lemmas for the server-content branch -/

lemma handleAudio_history (a : Option AudioChunk) (st : AppState) :
    (handleAudio a st).history = st.history := by
  cases a with
  | none => rfl
  | some ch => by_cases h : st.refs.outputCtx <;> simp [handleAudio, h]

lemma handleOutputTr_history (o : Option String) (k : Nat) (st : AppState) :
    (handleOutputTr o k st).history =
      st.history ++
        (if strTruthy o then [(⟨toString k, Role.model, o.getD "", k⟩ : Message)] else []) := by
  by_cases h : strTruthy o <;> simp [handleOutputTr, appendModelEntry, h]

lemma handleInputTr_history (o : Option String) (st : AppState) :
    (handleInputTr o st).history = st.history := by
  by_cases h : strTruthy o <;> simp [handleInputTr, setTranscript, h]

lemma commitTurn_history (closure : CenterPanel) (k : Nat) (st : AppState) :
    (commitTurn closure k st).history =
      st.history ++
        (if closure.transcript.isEmpty then []
          else [(⟨toString k, Role.user, closure.transcript, k⟩ : Message)]) := by
  by_cases h : closure.transcript.isEmpty <;> simp [commitTurn, h]

lemma handleTurnComplete_history (closure : CenterPanel) (b : Bool) (k : Nat)
    (st : AppState) :
    (handleTurnComplete closure b k st).history =
      st.history ++
        (if b && !closure.transcript.isEmpty then
            [(⟨toString k, Role.user, closure.transcript, k⟩ : Message)]
          else []) := by
  cases b with
  | false => simp [handleTurnComplete]
  | true =>
    by_cases h : closure.transcript.isEmpty <;>
      simp [handleTurnComplete, commitTurn_history, h]

lemma handleServerContent_history (closure : CenterPanel) (sc : ServerContent)
    (k : Nat) (st : AppState) :
    (handleServerContent closure sc k st).history =
      st.history ++
        ((if strTruthy sc.outputTranscription then
            [(⟨toString k, Role.model, sc.outputTranscription.getD "", k⟩ : Message)]
          else []) ++
        (if sc.turnComplete && !closure.transcript.isEmpty then
            [(⟨toString k, Role.user, closure.transcript, k⟩ : Message)]
          else [])) := by
  simp [handleServerContent, handleTurnComplete_history, handleInputTr_history,
    handleOutputTr_history, handleAudio_history, List.append_assoc]

lemma onmessage_history (closure : CenterPanel) (msg : ServerMessage) (st : AppState) :
    (onmessage closure msg st).1.history = st.history ++ newEntries closure msg := by
  obtain ⟨tc, sc, k⟩ := msg
  have h0 :
      (match tc with
        | some calls => handleCalls calls st
        | none => (st, [])).1.history = st.history := by
    cases tc with
    | none => rfl
    | some calls => exact handleCalls_history calls st
  cases sc with
  | none => simpa [onmessage, newEntries] using h0
  | some s =>
    simp only [onmessage, newEntries]
    rw [handleServerContent_history, h0]

/-! ### Claim theorems: event-router history behavior -/

/-- C1: in a fresh session the turn-complete commit never fires — the guard at
App.tsx line 267 and the committed text at line 272 read the `centerPanel`
captured by the callback closure when the session was opened (transcript `""`),
not the live buffer.  After the partials `"h"`, `"he"`, `"hello"` and a
turn-complete, the history is still empty and the live buffer still holds
`"hello"` (never committed, never cleared), contradicting the claimed single
`"hello"` history entry. -/
theorem turn_commit_reads_stale_snapshot :
    (runMessages initialPanel
        [inputMsg "h" 1, inputMsg "he" 2, inputMsg "hello" 3, turnCompleteMsg 4]
        freshState).history = [] ∧
    (runMessages initialPanel
        [inputMsg "h" 1, inputMsg "he" 2, inputMsg "hello" 3, turnCompleteMsg 4]
        freshState).centerPanel.transcript = "hello" :=
  ⟨rfl, rfl⟩

/-- C3: the de-duplication guard does not work.  If the callbacks were
installed while the live transcript held `"hello"` (leftover from an earlier
session), then clearing the live buffer after the first commit does not change
the closure snapshot the guard reads, so a second turn-complete with no
intervening transcript update appends a second `"hello"` entry. -/
theorem double_turn_complete_double_append :
    ((runMessages staleClosure [turnCompleteMsg 1, turnCompleteMsg 2]
        staleState).history.map Message.text) = ["hello", "hello"] :=
  rfl

/-- C7: the conversation history is append-only — every `onmessage` transition
extends the history by a (message-determined) suffix and never edits prior
entries; each non-empty output-transcription chunk is appended by
`appendModelEntry` as its own new model-role entry; and the turn-complete
commit either leaves the history unchanged or appends exactly one user entry
at the end. -/
theorem history_append_only (closure : CenterPanel) (msg : ServerMessage)
    (st : AppState) :
    (onmessage closure msg st).1.history = st.history ++ newEntries closure msg ∧
    (∀ (t : String) (k : Nat) (s : AppState),
        (appendModelEntry t k s).history
          = s.history ++ [(⟨toString k, Role.model, t, k⟩ : Message)]) ∧
    (∀ (k : Nat) (s : AppState),
        (commitTurn closure k s).history = s.history ∨
        (commitTurn closure k s).history
          = s.history ++ [(⟨toString k, Role.user, closure.transcript, k⟩ : Message)]) := by
  refine ⟨onmessage_history closure msg st, fun t k s => rfl, fun k s => ?_⟩
  by_cases h : closure.transcript.isEmpty
  · exact Or.inl (by simp [commitTurn, h])
  · exact Or.inr (by simp [commitTurn, h])

/-- C9: function calls not named `update_ui` are silently skipped — running a
batch is the same as running only its `update_ui` calls, and the number of
acknowledgments equals the number of `update_ui` calls, not the batch size. -/
theorem non_update_ui_calls_ignored (calls : List FunctionCall) (st : AppState) :
    handleCalls calls st
      = handleCalls (calls.filter fun c => c.name == "update_ui") st ∧
    (handleCalls calls st).2.length
      = (calls.filter fun c => c.name == "update_ui").length := by
  induction calls generalizing st with
  | nil => exact ⟨rfl, rfl⟩
  | cons c rest ih =>
    by_cases h : c.name = "update_ui"
    · refine ⟨?_, ?_⟩
      · simp [handleCalls, h, List.filter_cons, (ih (applyUpdateUi c.args st)).1]
      · simp [handleCalls, h, List.filter_cons, (ih (applyUpdateUi c.args st)).2]
    · have hb : (c.name == "update_ui") = false := by
        simpa using h
      refine ⟨?_, ?_⟩
      · simp [handleCalls, h, List.filter_cons, hb, (ih st).1]
      · simp [handleCalls, h, List.filter_cons, hb, (ih st).2]

/-! ### Tool-call batching and per-field update behavior -/

/-- C4: a tool-call event carrying two `update_ui` calls applies both argument
objects to the UI state in order and sends back exactly two acknowledgments in
one batch, each a success result carrying the id and name of its originating
call. -/
theorem tool_call_batch_two_acks (closure : CenterPanel) (c1 c2 : FunctionCall)
    (st : AppState) (t : Nat)
    (h1 : c1.name = "update_ui") (h2 : c2.name = "update_ui") :
    onmessage closure ⟨some [c1, c2], none, t⟩ st
      = (applyUpdateUi c2.args (applyUpdateUi c1.args st),
         [⟨c1.id, c1.name, "success"⟩, ⟨c2.id, c2.name, "success"⟩]) := by
  simp [onmessage, handleCalls, h1, h2]

theorem tool_call_batch_two_acks_witness :
    onmessage initialPanel ⟨some [callA, callB], none, 5⟩ freshState
      = (applyUpdateUi callB.args (applyUpdateUi callA.args freshState),
         [⟨callA.id, callA.name, "success"⟩, ⟨callB.id, callB.name, "success"⟩]) :=
  tool_call_batch_two_acks initialPanel callA callB freshState 5 rfl rfl

lemma applyUpdateUi_question (args : UpdateUiArgs) (st : AppState) :
    (applyUpdateUi args st).centerPanel.question
      = (applyQuestion args.center_panel_question st).centerPanel.question := by
  simp [applyUpdateUi, applyFeedback_panel, applyStatus_question]

lemma applyUpdateUi_status (args : UpdateUiArgs) (st : AppState) :
    (applyUpdateUi args st).centerPanel.status
      = (applyStatus args.status_message
          (applyQuestion args.center_panel_question st)).centerPanel.status := by
  simp [applyUpdateUi, applyFeedback_panel]

lemma applyQuestion_ne_empty (o : Option String) (st : AppState)
    (h : (applyQuestion o st).centerPanel.question = "") :
    st.centerPanel.question = "" := by
  by_cases ht : strTruthy o
  · rw [applyQuestion, if_pos ht] at h
    cases o with
    | none => simp [strTruthy] at ht
    | some s =>
      simp [strTruthy] at ht
      simp at h
      subst h
      exact absurd ht (by decide)
  · rwa [applyQuestion, if_neg ht] at h

lemma applyStatus_ne_empty (o : Option String) (st : AppState)
    (h : (applyStatus o st).centerPanel.status = "") :
    st.centerPanel.status = "" := by
  by_cases ht : strTruthy o
  · rw [applyStatus, if_pos ht] at h
    cases o with
    | none => simp [strTruthy] at ht
    | some s =>
      simp [strTruthy] at ht
      simp at h
      subst h
      exact absurd ht (by decide)
  · rwa [applyStatus, if_neg ht] at h

/-- C10: an `update_ui` call modifies only the fields that are present and
truthy — an absent or empty-string question/status leaves that field
unchanged, an absent feedback leaves the snapshot unchanged, the live
transcript and the history are untouched, and no update can turn a non-empty
question or status into the empty string. -/
theorem update_ui_frame_conditions (args : UpdateUiArgs) (st : AppState) :
    (strTruthy args.center_panel_question = false →
        (applyUpdateUi args st).centerPanel.question = st.centerPanel.question) ∧
    (strTruthy args.status_message = false →
        (applyUpdateUi args st).centerPanel.status = st.centerPanel.status) ∧
    (args.feedback = none → (applyUpdateUi args st).feedback = st.feedback) ∧
    (applyUpdateUi args st).centerPanel.transcript = st.centerPanel.transcript ∧
    (applyUpdateUi args st).history = st.history ∧
    ((applyUpdateUi args st).centerPanel.question = "" →
        st.centerPanel.question = "") ∧
    ((applyUpdateUi args st).centerPanel.status = "" →
        st.centerPanel.status = "") := by
  refine ⟨?_, ?_, ?_, applyUpdateUi_transcript args st, applyUpdateUi_history args st,
    ?_, ?_⟩
  · intro h
    rw [applyUpdateUi_question, applyQuestion, if_neg (by simp [h])]
  · intro h
    rw [applyUpdateUi_status, applyStatus, if_neg (by simp [h]),
      applyQuestion_status]
  · intro h
    simp [applyUpdateUi, h, applyFeedback, applyStatus_feedback, applyQuestion_feedback]
  · intro h
    rw [applyUpdateUi_question] at h
    exact applyQuestion_ne_empty _ _ h
  · intro h
    rw [applyUpdateUi_status] at h
    have h3 := applyStatus_ne_empty _ _ h
    rwa [applyQuestion_status] at h3

theorem update_ui_frame_conditions_witness :
    (applyUpdateUi argsW stEmptyW).centerPanel.question
      = stEmptyW.centerPanel.question ∧
    (applyUpdateUi argsW stEmptyW).centerPanel.status
      = stEmptyW.centerPanel.status ∧
    (applyUpdateUi argsW stEmptyW).feedback = stEmptyW.feedback ∧
    (applyUpdateUi argsW stEmptyW).centerPanel.transcript
      = stEmptyW.centerPanel.transcript ∧
    (applyUpdateUi argsW stEmptyW).history = stEmptyW.history ∧
    stEmptyW.centerPanel.question = "" ∧
    stEmptyW.centerPanel.status = "" := by
  obtain ⟨h1, h2, h3, h4, h5, h6, h7⟩ := update_ui_frame_conditions argsW stEmptyW
  exact ⟨h1 (by decide), h2 (by decide), h3 rfl, h4, h5, h6 (by decide), h7 (by decide)⟩

/-! ### Playback-scheduler invariants -/

lemma schedRun_start_ge (chunks : List AudioChunk) (r : Refs)
    (hd : ∀ ch ∈ chunks, 0 ≤ ch.duration) :
    ∀ s ∈ (schedRun chunks r).1, r.nextStartTime ≤ s := by
  induction chunks generalizing r with
  | nil => intro s hs; simp [schedRun] at hs
  | cons ch rest ih =>
    intro s hs
    rw [schedRun] at hs
    rcases List.mem_cons.mp hs with h | h
    · subst h
      exact le_max_right _ _
    · have hnext :
          r.nextStartTime ≤ (scheduleChunk ch r).1.nextStartTime := by
        have h1 : r.nextStartTime ≤ max ch.now r.nextStartTime := le_max_right _ _
        have h2 : (0 : ℚ) ≤ ch.duration := hd ch (List.mem_cons_self _ _)
        calc r.nextStartTime ≤ max ch.now r.nextStartTime := h1
          _ ≤ max ch.now r.nextStartTime + ch.duration := le_add_of_nonneg_right h2
          _ = (scheduleChunk ch r).1.nextStartTime := rfl
      exact le_trans hnext
        (ih (scheduleChunk ch r).1
          (fun c hc => hd c (List.mem_cons_of_mem _ hc)) s h)

lemma schedRun_pairwise (chunks : List AudioChunk) (r : Refs)
    (hd : ∀ ch ∈ chunks, 0 ≤ ch.duration) :
    List.Pairwise (fun a b => a.1 + a.2.duration ≤ b.1)
      ((schedRun chunks r).1.zip chunks) := by
  induction chunks generalizing r with
  | nil => simp [schedRun]
  | cons ch rest ih =>
    rw [schedRun, List.zip_cons_cons]
    refine List.Pairwise.cons ?_
      (ih (scheduleChunk ch r).1 (fun c hc => hd c (List.mem_cons_of_mem _ hc)))
    rintro ⟨s, c⟩ hp
    have hmem := List.of_mem_zip hp
    have hge := schedRun_start_ge rest (scheduleChunk ch r).1
      (fun c2 hc => hd c2 (List.mem_cons_of_mem _ hc)) s hmem.1
    calc (scheduleChunk ch r).2 + ch.duration
        = (scheduleChunk ch r).1.nextStartTime := rfl
      _ ≤ s := hge

lemma cursorTrace_head (chunks : List AudioChunk) (r : Refs) :
    (cursorTrace chunks r).head? = some r.nextStartTime := by
  cases chunks <;> rfl

lemma cursorTrace_chain (chunks : List AudioChunk) (r : Refs)
    (hd : ∀ ch ∈ chunks, 0 ≤ ch.duration) :
    List.Chain' (· ≤ ·) (cursorTrace chunks r) := by
  induction chunks generalizing r with
  | nil => simp [cursorTrace]
  | cons ch rest ih =>
    rw [cursorTrace, List.chain'_cons']
    constructor
    · intro y hy
      rw [cursorTrace_head] at hy
      have hy2 : y = (scheduleChunk ch r).1.nextStartTime := by
        simpa using hy.symm
      subst hy2
      have h2 : (0 : ℚ) ≤ ch.duration := hd ch (List.mem_cons_self _ _)
      calc r.nextStartTime ≤ max ch.now r.nextStartTime := le_max_right _ _
        _ ≤ max ch.now r.nextStartTime + ch.duration := le_add_of_nonneg_right h2
        _ = (scheduleChunk ch r).1.nextStartTime := rfl
    · exact ih (scheduleChunk ch r).1 (fun c hc => hd c (List.mem_cons_of_mem _ hc))

/-- C2: scheduling invariants of the playback timeline.  Each chunk starts at
`max(currentTime, cursor)` and advances the cursor by its duration (third
conjunct); across any arrival-ordered sequence of chunks with nonnegative
durations, the cursor values are non-decreasing (first conjunct) and any later
chunk starts no earlier than any earlier chunk's start plus that chunk's
duration — no overlap (second conjunct, pairwise over arrival order). -/
theorem scheduler_cursor_monotone_no_overlap (chunks : List AudioChunk) (r : Refs)
    (hd : ∀ ch ∈ chunks, 0 ≤ ch.duration) :
    List.Chain' (· ≤ ·) (cursorTrace chunks r) ∧
    List.Pairwise (fun a b => a.1 + a.2.duration ≤ b.1)
      ((schedStarts chunks r).zip chunks) ∧
    (∀ (ch : AudioChunk) (r2 : Refs),
        (scheduleChunk ch r2).2 = max ch.now r2.nextStartTime ∧
        (scheduleChunk ch r2).1.nextStartTime
          = (scheduleChunk ch r2).2 + ch.duration) :=
  ⟨cursorTrace_chain chunks r hd,
   schedRun_pairwise chunks r hd,
   fun _ _ => ⟨rfl, rfl⟩⟩

theorem scheduler_cursor_monotone_no_overlap_witness :
    List.Chain' (· ≤ ·) (cursorTrace chunksW connectedRefs) ∧
    List.Pairwise (fun a b => a.1 + a.2.duration ≤ b.1)
      ((schedStarts chunksW connectedRefs).zip chunksW) ∧
    (∀ (ch : AudioChunk) (r2 : Refs),
        (scheduleChunk ch r2).2 = max ch.now r2.nextStartTime ∧
        (scheduleChunk ch r2).1.nextStartTime
          = (scheduleChunk ch r2).2 + ch.duration) :=
  scheduler_cursor_monotone_no_overlap chunksW connectedRefs (by decide)

/-! ### PCM encoder: base64 layer -/

lemma b64Val_b64Char : ∀ n < 64, b64Val (b64Char n) = n := by decide

lemma b64Char_ne_pad : ∀ n < 64, b64Char n ≠ '=' := by decide

theorem b64_roundtrip :
    ∀ (bs : List Nat), (∀ b ∈ bs, b < 256) → b64Decode (b64Encode bs) = bs
  | [], _ => rfl
  | [b0], h => by
    have hb0 : b0 < 256 := h b0 (by simp)
    have h1 : b0 / 4 < 64 := by omega
    have h2 : b0 % 4 * 16 < 64 := by omega
    show b64Decode [b64Char (b0 / 4), b64Char (b0 % 4 * 16), '=', '='] = [b0]
    simp [b64Decode, b64Val_b64Char _ h1, b64Val_b64Char _ h2]
    omega
  | [b0, b1], h => by
    have hb0 : b0 < 256 := h b0 (by simp)
    have hb1 : b1 < 256 := h b1 (by simp)
    have h1 : b0 / 4 < 64 := by omega
    have h2 : b0 % 4 * 16 + b1 / 16 < 64 := by omega
    have h3 : b1 % 16 * 4 < 64 := by omega
    show b64Decode
        [b64Char (b0 / 4), b64Char (b0 % 4 * 16 + b1 / 16), b64Char (b1 % 16 * 4), '=']
      = [b0, b1]
    simp [b64Decode, b64Char_ne_pad _ h3, b64Val_b64Char _ h1, b64Val_b64Char _ h2,
      b64Val_b64Char _ h3]
    omega
  | b0 :: b1 :: b2 :: rest, h => by
    have hb0 : b0 < 256 := h b0 (by simp)
    have hb1 : b1 < 256 := h b1 (by simp)
    have hb2 : b2 < 256 := h b2 (by simp)
    have ih := b64_roundtrip rest (fun b hb => h b (by simp [hb]))
    have h1 : b0 / 4 < 64 := by omega
    have h2 : b0 % 4 * 16 + b1 / 16 < 64 := by omega
    have h3 : b1 % 16 * 4 + b2 / 64 < 64 := by omega
    have h4 : b2 % 64 < 64 := by omega
    show b64Decode
        (b64Char (b0 / 4) :: b64Char (b0 % 4 * 16 + b1 / 16) ::
          b64Char (b1 % 16 * 4 + b2 / 64) :: b64Char (b2 % 64) :: b64Encode rest)
      = b0 :: b1 :: b2 :: rest
    simp [b64Decode, b64Char_ne_pad _ h3, b64Char_ne_pad _ h4,
      b64Val_b64Char _ h1, b64Val_b64Char _ h2, b64Val_b64Char _ h3,
      b64Val_b64Char _ h4, ih]
    omega

/-! ### PCM encoder: 16-bit little-endian layer -/

lemma pcmBytes_lt (xs : List ℚ) : ∀ b ∈ pcmBytes xs, b < 256 := by
  induction xs with
  | nil => simp [pcmBytes]
  | cons x rest ih =>
    intro b hb
    rw [pcmBytes] at hb
    rcases List.mem_append.mp hb with hm | hm
    · have h0 : 0 ≤ (quantize x).emod 65536 :=
        Int.emod_nonneg _ (by norm_num)
      have h1 : (quantize x).emod 65536 < 65536 :=
        Int.emod_lt_of_pos _ (by norm_num)
      simp [int16ToBytes] at hm
      rcases hm with hm | hm <;> omega
    · exact ih b hm

lemma bytesToInt16_int16ToBytes (i : ℤ) (hlo : -32768 ≤ i) (hhi : i < 32768) :
    bytesToInt16 ((i.emod 65536).toNat % 256) ((i.emod 65536).toNat / 256) = i := by
  have h0 : 0 ≤ i.emod 65536 := Int.emod_nonneg _ (by norm_num)
  have h1 : i.emod 65536 < 65536 := Int.emod_lt_of_pos _ (by norm_num)
  have h2 : i.emod 65536 = i ∨ i.emod 65536 = i + 65536 := by
    rcases le_or_lt 0 i with hpos | hneg
    · exact Or.inl (Int.emod_eq_of_lt hpos (by omega))
    · refine Or.inr ?_
      have e1 : (i + 65536 * 1).emod 65536 = i.emod 65536 :=
        Int.add_mul_emod_self_left i 65536 1
      have e2 : (i + 65536 * 1).emod 65536 = i + 65536 * 1 :=
        Int.emod_eq_of_lt (by omega) (by omega)
      omega
  simp only [bytesToInt16]
  split <;> omega

lemma clampSample_mem (x : ℚ) : -1 ≤ clampSample x ∧ clampSample x ≤ 1 := by
  unfold clampSample
  exact ⟨le_max_left _ _, max_le (by norm_num) (min_le_left _ _)⟩

lemma quantize_bounds (x : ℚ) : -32767 ≤ quantize x ∧ quantize x ≤ 32767 := by
  obtain ⟨h1, h2⟩ := clampSample_mem x
  unfold quantize
  rw [round_eq]
  constructor
  · refine Int.le_floor.mpr ?_
    push_cast
    linarith
  · have hlt : ⌊clampSample x * 32767 + 1 / 2⌋ < 32768 := by
      refine Int.floor_lt.mpr ?_
      push_cast
      linarith
    omega

lemma bytesToSamples_pcmBytes (xs : List ℚ) :
    bytesToSamples (pcmBytes xs) = xs.map fun x => dequantize (quantize x) := by
  induction xs with
  | nil => rfl
  | cons x rest ih =>
    have hq := quantize_bounds x
    rw [pcmBytes]
    simp only [int16ToBytes, List.cons_append, List.nil_append]
    rw [bytesToSamples, bytesToInt16_int16ToBytes _ (by omega) (by omega), ih,
      List.map_cons]

lemma decodePcmBlob_createPcmBlob (xs : List ℚ) :
    decodePcmBlob (createPcmBlob xs) = xs.map fun x => dequantize (quantize x) := by
  unfold decodePcmBlob createPcmBlob
  rw [b64_roundtrip _ (pcmBytes_lt xs), bytesToSamples_pcmBytes]

lemma quantize_dequantize_close (x : ℚ) (h1 : -1 ≤ x) (h2 : x ≤ 1) :
    |dequantize (quantize x) - x| ≤ 1 / 32767 := by
  have hc : clampSample x = x := by
    unfold clampSample
    rw [min_eq_right h2, max_eq_right h1]
  unfold quantize dequantize
  rw [hc]
  have hr : |(round (x * 32767) : ℚ) - x * 32767| ≤ 1 / 2 := by
    rw [abs_sub_comm]
    exact abs_sub_round (x * 32767)
  have key : (round (x * 32767) : ℚ) / 32767 - x
      = ((round (x * 32767) : ℚ) - x * 32767) / 32767 := by ring
  rw [key, abs_div, abs_of_pos (by norm_num : (0 : ℚ) < 32767)]
  calc |(round (x * 32767) : ℚ) - x * 32767| / 32767
      ≤ (1 / 2) / 32767 := by gcongr
    _ ≤ 1 / 32767 := by norm_num

lemma clampSample_idem (x : ℚ) : clampSample (clampSample x) = clampSample x := by
  obtain ⟨h1, h2⟩ := clampSample_mem x
  show max (-1) (min 1 (clampSample x)) = clampSample x
  rw [min_eq_right h2, max_eq_right h1]

lemma pcmBytes_map_clamp (ys : List ℚ) :
    pcmBytes (ys.map clampSample) = pcmBytes ys := by
  induction ys with
  | nil => rfl
  | cons y rest ih =>
    simp [pcmBytes, ih, quantize, clampSample_idem]

/-- C5: the encoder is total — out-of-range samples are clamped into `[-1, 1]`
rather than raising (fourth conjunct: encoding any input equals encoding its
clamped image) — it tags its output with the fixed mime descriptor (first
conjunct), decoding its base64-wrapped 16-bit little-endian payload recovers
exactly the quantized samples (second conjunct), and for in-range inputs each
recovered value is within one quantization step of the original (third
conjunct). -/
theorem pcm_encoder_roundtrip (xs : List ℚ) (h : ∀ x ∈ xs, -1 ≤ x ∧ x ≤ 1) :
    (createPcmBlob xs).mimeType = "audio/pcm;rate=16000" ∧
    decodePcmBlob (createPcmBlob xs) = xs.map (fun x => dequantize (quantize x)) ∧
    (∀ x ∈ xs, |dequantize (quantize x) - x| ≤ 1 / 32767) ∧
    (∀ ys : List ℚ, createPcmBlob ys = createPcmBlob (ys.map clampSample)) := by
  refine ⟨rfl, decodePcmBlob_createPcmBlob xs, ?_, ?_⟩
  · intro x hx
    exact quantize_dequantize_close x (h x hx).1 (h x hx).2
  · intro ys
    unfold createPcmBlob
    rw [pcmBytes_map_clamp]

theorem pcm_encoder_roundtrip_witness :
    (createPcmBlob samplesW).mimeType = "audio/pcm;rate=16000" ∧
    decodePcmBlob (createPcmBlob samplesW)
      = samplesW.map (fun x => dequantize (quantize x)) ∧
    (∀ x ∈ samplesW, |dequantize (quantize x) - x| ≤ 1 / 32767) ∧
    (∀ ys : List ℚ, createPcmBlob ys = createPcmBlob (ys.map clampSample)) :=
  pcm_encoder_roundtrip samplesW (by decide)

/-! ### Capture pipeline -/

lemma foldl_add_sq (xs : List ℚ) (a : ℚ) :
    xs.foldl (fun s x => s + x * x) a = a + (xs.map fun x => x * x).sum := by
  induction xs generalizing a with
  | nil => simp
  | cons x rest ih =>
    rw [List.foldl_cons, ih, List.map_cons, List.sum_cons]
    ring

/-- C8: on every microphone callback the volume signal is set to the
root-mean-square of the sample window, `sqrt((x_0^2 + ... + x_{N-1}^2) / N)`,
and the window, run through the PCM encoder, is appended to the stream of
frames forwarded to the session. -/
theorem capture_rms_and_forward (xs : List ℚ) (st : CaptureState) :
    (onaudioprocess xs st).volume
      = Real.sqrt ((((xs.map fun x => x * x).sum / (xs.length : ℚ) : ℚ) : ℝ)) ∧
    (onaudioprocess xs st).sent = st.sent ++ [createPcmBlob xs] := by
  constructor
  · show Real.sqrt (((xs.foldl (fun s x => s + x * x) 0 / (xs.length : ℚ) : ℚ) : ℝ))
        = _
    rw [foldl_add_sq, zero_add]
  · rfl

/-! ### Cleanup idempotence -/

lemma cleanup_fst (r : Refs) :
    (cleanup r).1 = ⟨false, false, false, false, [], r.nextStartTime⟩ := by
  obtain ⟨p, isrc, ic, oc, q, n⟩ := r
  cases p <;> cases isrc <;> cases ic <;> cases oc <;> rfl

/-- C6: the teardown routine is idempotent — after one `cleanup` every node and
context ref is null and the playback queue is empty, so a second `cleanup`
performs no disconnect, close or stop action at all (nothing that could throw),
changes nothing, and leaves zero active playback sources. -/
theorem cleanup_idempotent_no_ops (r : Refs) :
    (cleanup (cleanup r).1).2 = [] ∧
    (cleanup (cleanup r).1).1 = (cleanup r).1 ∧
    (cleanup r).1.audioQueue = [] := by
  rw [cleanup_fst r]
  refine ⟨rfl, ?_, rfl⟩
  rw [cleanup_fst]

end InterviewAgent
